import Mathlib

/-!
Verification of the chore-scheduler rule engine (`src/script.js`).

The mutable JSON document held in localStorage is modelled as an explicit
`Data` value; every function of the source that the claims touch is
translated into a pure Lean function over `Data`.  JS objects keyed by
strings become association lists whose update operation (`setDay`,
`setAssign`) replaces an existing key in place and otherwise appends,
matching JS property-assignment semantics (insertion order preserved).
`Math.floor(Math.random() * n)` is modelled by an injected stream
`rand : Nat → Nat`, reduced modulo the candidate-list length; the stream
index is threaded through the two assignment phases exactly as the single
global random source is consumed by the source code.
-/

namespace Chores

structure Person where
  id : String
  name : String
deriving DecidableEq

structure Chore where
  id : String
  name : String
deriving DecidableEq

structure DayRecord where
  availablePersonIds : List String
  assignments : List (String × String)
  confirmed : Bool
deriving DecidableEq

structure Data where
  chores : List Chore
  people : List Person
  assignmentsByDate : List (String × DayRecord)
deriving DecidableEq

/-- Reading `data.assignmentsByDate[date]` on a JS object: the (unique)
matching key, `undefined` becomes `none`. -/
def lookupDate : List (String × DayRecord) → String → Option DayRecord
  | [], _ => none
  | (k, v) :: rest, d => if k = d then some v else lookupDate rest d

def lookupDay (data : Data) (d : String) : Option DayRecord :=
  lookupDate data.assignmentsByDate d

/-- Writing `data.assignmentsByDate[date] = rec`: replace an existing key in
place, otherwise append.  JS object keys are unique, so replacing the first
match models keyed assignment exactly, and insertion order is preserved. -/
def setDay : List (String × DayRecord) → String → DayRecord → List (String × DayRecord)
  | [], k, v => [(k, v)]
  | p :: rest, k, v => if p.1 = k then (k, v) :: rest else p :: setDay rest k v

/-- Writing `obj[choreId] = personId` on an assignments object, same shape. -/
def setAssign : List (String × String) → String → String → List (String × String)
  | [], k, v => [(k, v)]
  | p :: rest, k, v => if p.1 = k then (k, v) :: rest else p :: setAssign rest k v

/-- JS `<` on strings: lexicographic comparison by character code. -/
def charsLt : List Char → List Char → Bool
  | [], [] => false
  | [], _ :: _ => true
  | _ :: _, [] => false
  | a :: as, b :: bs => if a < b then true else if b < a then false else charsLt as bs

def strLt (a b : String) : Bool := charsLt a.data b.data

/-- Descending insertion used to model `.sort().reverse()` on date keys. -/
def insertDesc (x : String) : List String → List String
  | [] => [x]
  | y :: ys => if strLt y x then x :: y :: ys else y :: insertDesc x ys

def sortDesc (l : List String) : List String := l.foldr insertDesc []

/-- The list
`Object.keys(data.assignmentsByDate).filter(d => d < beforeDate).sort().reverse()`
(the prior-history enumeration used by `getLastWorkday` and
`generateAssignments`). -/
def datesBefore (data : Data) (before : String) : List String :=
  sortDesc ((data.assignmentsByDate.map Prod.fst).filter (fun d => strLt d before))

/-- `getLastWorkday(data, beforeDate)` from `src/script.js`: the record of the
most recent date strictly before `beforeDate`, regardless of its contents. -/
def getLastWorkday (data : Data) (beforeDate : String) : Option DayRecord :=
  match datesBefore data beforeDate with
  | [] => none
  | d :: _ => lookupDate data.assignmentsByDate d

/-- `data.people.some(p => p.id === pid)` (the deleted-people filter). -/
def existsPerson (data : Data) (pid : String) : Bool :=
  data.people.any (fun p => decide (p.id = pid))

/-- The DayRecord for `date` as it stands when `normalizeAvailability(data,
date)` returns; in the source this object is aliased by the callers’ local
`day` variables.  The create path copies the previous day’s availability
without filtering; the existing-record path inherits only when the current
set is empty and then filters out deleted people. -/
def normalizeRecord (data : Data) (date : String) : DayRecord :=
  match lookupDay data date with
  | none =>
      { availablePersonIds :=
          match getLastWorkday data date with
          | some lastDay =>
              if lastDay.availablePersonIds.length ≠ 0 then lastDay.availablePersonIds
              else []
          | none => []
        assignments := []
        confirmed := false }
  | some day =>
      let a1 :=
        if day.availablePersonIds.length = 0 then
          match getLastWorkday data date with
          | some lastDay =>
              if lastDay.availablePersonIds.length ≠ 0 then lastDay.availablePersonIds
              else day.availablePersonIds
          | none => day.availablePersonIds
        else day.availablePersonIds
      { day with availablePersonIds := a1.filter (fun pid => existsPerson data pid) }

/-- `normalizeAvailability(data, date)` from `src/script.js` as a store
transformer (`saveData` persists the mutated `data`, which the model
represents by the returned value). -/
def normalizeAvailability (data : Data) (date : String) : Data :=
  { data with
    assignmentsByDate := setDay data.assignmentsByDate date (normalizeRecord data date) }

/-- Reading the assignments object of a day: `rec.assignments[choreId]`. -/
def lookupAssign : List (String × String) → String → Option String
  | [], _ => none
  | (k, v) :: rest, c => if k = c then some v else lookupAssign rest c

/-- `Object.values(data.assignmentsByDate[d]?.assignments || {})`. -/
def assignedValues (data : Data) (d : String) : List String :=
  match lookupDate data.assignmentsByDate d with
  | some rec => rec.assignments.map Prod.snd
  | none => []

/-- `data.assignmentsByDate[d]?.assignments?.[choreId]`. -/
def choreAssignee (data : Data) (d : String) (choreId : String) : Option String :=
  match lookupDate data.assignmentsByDate d with
  | some rec => lookupAssign rec.assignments choreId
  | none => none

/-- The one-chore-per-person filter applied when `enforceSingleChore` holds:
`candidates.filter(pid => !assignedToday.has(pid))`. -/
def afterSingleChore (available assignedToday : List String) (enforce : Bool) :
    List String :=
  if enforce then available.filter (fun pid => decide (pid ∉ assignedToday))
  else available

/-- The Phase-1 consecutive-day predicate for one person:
`dates.slice(0, 2).every(d => Object.values(...assignments).includes(pid))`. -/
def consecBlocked (data : Data) (dates : List String) (pid : String) : Bool :=
  (dates.take 2).all (fun d => decide (pid ∈ assignedValues data d))

/-- The consecutive-day filter step of Phase 1. -/
def afterConsecutive (data : Data) (dates : List String) (l : List String) :
    List String :=
  l.filter (fun pid => ! consecBlocked data dates pid)

/-- The same-chore-cooldown predicate:
`dates.slice(0, 5).some(d => ...assignments[chore.id] === pid)`. -/
def cooldownBlocked (data : Data) (dates : List String) (choreId pid : String) :
    Bool :=
  (dates.take 5).any (fun d => decide (choreAssignee data d choreId = some pid))

/-- The full candidate set built for one chore inside the Phase-1 loop of
`generateAssignments`. -/
def phase1Candidates (data : Data) (dates : List String)
    (available assignedToday : List String) (enforce : Bool) (chore : Chore) :
    List String :=
  (afterConsecutive data dates (afterSingleChore available assignedToday enforce)).filter
    (fun pid => ! cooldownBlocked data dates chore.id pid)

/-- The Phase-1 loop.  Returns the completed map (`some`) or `none` on the
first chore with no candidates (the `success = false; break` path), together
with the number of random picks consumed, so that Phase 2 continues on the
same random stream. -/
def phase1Go (data : Data) (dates : List String) (available : List String)
    (enforce : Bool) (rand : Nat → Nat) :
    List Chore → Nat → List (String × String) → List String →
      Option (List (String × String)) × Nat
  | [], k, acc, _ => (some acc, k)
  | chore :: rest, k, acc, assignedToday =>
    let candidates := phase1Candidates data dates available assignedToday enforce chore
    if candidates.length = 0 then (none, k)
    else
      let pick := candidates.getD (rand k % candidates.length) ""
      phase1Go data dates available enforce rand rest (k + 1)
        (setAssign acc chore.id pick) (pick :: assignedToday)

/-- The Phase-2 (relaxed) loop: only the single-chore-per-day exclusion is
kept.  Returns `none` on the first chore with no candidates — the source
`return`s at that point, discarding the partial map built in `acc`. -/
def phase2Go (available : List String) (enforce : Bool) (rand : Nat → Nat) :
    List Chore → Nat → List (String × String) → List String →
      Option (List (String × String))
  | [], _, acc, _ => some acc
  | chore :: rest, k, acc, assignedToday =>
    let candidates := afterSingleChore available assignedToday enforce
    if candidates.length = 0 then none
    else
      let pick := candidates.getD (rand k % candidates.length) ""
      phase2Go available enforce rand rest (k + 1)
        (setAssign acc chore.id pick) (pick :: assignedToday)

def confirmedMsg : String := "Assignments are already confirmed for today."

def noAvailableMsg : String :=
  "No available people selected. Please select availability before generating assignments."

def notEnoughMsg : String :=
  "Not enough available people for all chores. Please adjust availability or assign manually."

def impossibleMsg : String :=
  "Assignment impossible without violating daily limits. Manual review required."

def relaxedMsg : String :=
  "Fairness rules were relaxed for some chores. Manual review recommended."

/-- The final commit `day.assignments = newAssignments; saveData(data)`: a
single replacement of the whole assignments map on today's record. -/
def commitToday (data1 : Data) (today : String) (day : DayRecord)
    (m : List (String × String)) : Data :=
  { data1 with
    assignmentsByDate :=
      setDay data1.assignmentsByDate today { day with assignments := m } }

/-- Body of `generateAssignments()` after the early `if (!day) return`:
validation, Phase 1, Phase 2 and the commit.  `data1` is the store after
normalization ran, `day` the normalized record for `today` (the object the
source aliases through its local `day` variable). -/
def generateCore (data1 : Data) (day : DayRecord) (today : String)
    (rand : Nat → Nat) : Data × Option String :=
  if day.confirmed then (data1, some confirmedMsg)
  else
    let available := day.availablePersonIds
    let chores := data1.chores
    if available.length = 0 then (data1, some noAvailableMsg)
    else if available.length < chores.length then (data1, some notEnoughMsg)
    else
      let dates := datesBefore data1 today
      let enforce := decide (chores.length ≤ available.length)
      match phase1Go data1 dates available enforce rand chores 0 [] [] with
      | (some newAssignments, _) =>
          (commitToday data1 today day newAssignments, none)
      | (none, k) =>
        match phase2Go available enforce rand chores k [] [] with
        | none => (data1, some impossibleMsg)
        | some newAssignments =>
            (commitToday data1 today day newAssignments, some relaxedMsg)

/-- `generateAssignments()` from `src/script.js`.  The local `day` variable is
read from the store before `normalizeAvailability` runs and `if (!day) return`
fires on its pre-normalization value; because `day` aliases the stored object,
all later reads see the normalized record, modelled by `normalizeRecord`.  The
returned `Option String` is the single user-visible message of the run (the
warning element text, or the alert on the confirmed path). -/
def generateAssignments (data : Data) (today : String) (rand : Nat → Nat) :
    Data × Option String :=
  match lookupDay data today with
  | none => (normalizeAvailability data today, none)
  | some _ =>
      generateCore (normalizeAvailability data today) (normalizeRecord data today)
        today rand

/-- `cleanupOldData()` from `src/script.js`.  `new Date(dateString)` parses an
ISO date at UTC midnight; the caller supplies that parse as `parse`.  The
cutoff `new Date(); cutoff.setDate(getDate() - 30)` is the current timestamp
minus 30 calendar days, which in this DST-free model is `nowTs - 30 * 86400`
seconds.  A record is deleted iff its parsed timestamp is strictly below the
cutoff. -/
def cleanupOldData (data : Data) (parse : String → Int) (nowTs : Int) : Data :=
  { data with
    assignmentsByDate :=
      data.assignmentsByDate.filter
        (fun p => ! decide (parse p.1 < nowTs - 30 * 86400)) }

/-- UTC midnight of a calendar day counted as days since the epoch: the
timestamp `new Date("YYYY-MM-DD")` yields for that day. -/
def utcMidnight (day : Int) : Int := day * 86400

/-- The local calendar day (days since the epoch) containing timestamp `ts`
in a time zone `o` seconds east of UTC. -/
def localDayNumber (ts o : Int) : Int := (ts + o) / 86400

/-- Fixture for the end-to-end scenario: chores Dishes and Trash, people A, B,
C, everyone available today, today's record unconfirmed, no prior days. -/
def endToEndStore : Data :=
  { chores := [⟨"ch1", "Dishes"⟩, ⟨"ch2", "Trash"⟩],
    people := [⟨"pA", "A"⟩, ⟨"pB", "B"⟩, ⟨"pC", "C"⟩],
    assignmentsByDate := [("2025-06-10", ⟨["pA", "pB", "pC"], [], false⟩)] }

/-- Fixture whose availability list repeats one id: validation counts length,
so this passes `available.length >= chores.length` and drives the run into the
Phase-2 empty-candidate branch. -/
def duplicateAvailStore : Data :=
  { chores := [⟨"c1", "X"⟩, ⟨"c2", "Y"⟩],
    people := [⟨"pA", "A"⟩],
    assignmentsByDate := [("2025-06-10", ⟨["pA", "pA"], [], false⟩)] }

/-- Fixture with a dangling availability id (person deleted from the people
collection): normalization rewrites today's availability during a run that is
then blocked by validation. -/
def validationStore : Data :=
  { chores := [⟨"c1", "Dishes"⟩],
    people := [],
    assignmentsByDate := [("2025-06-10", ⟨["x"], [("c1", "px")], false⟩)] }

/-- Fixture where the nearest earlier day has empty availability while an
older day has a non-empty one. -/
def skipStore : Data :=
  { chores := [], people := [⟨"pA", "A"⟩],
    assignmentsByDate :=
      [("2025-01-01", ⟨["pA"], [], false⟩),
       ("2025-01-02", ⟨[], [], false⟩),
       ("2025-01-03", ⟨[], [], false⟩)] }

/-- Fixture whose only record holds an availability id that matches no
current person. -/
def danglingStore : Data :=
  { chores := [], people := [],
    assignmentsByDate := [("2025-01-01", ⟨["b"], [], false⟩)] }

/-- Fixture for the retention sweep: a single record on epoch day 0. -/
def retentionStore : Data :=
  { chores := [], people := [],
    assignmentsByDate := [("1970-01-01", ⟨[], [], false⟩)] }

/-- Day number (days since the epoch) of the dates used by
`retentionStore`: "1970-01-01" is day 0. -/
def epochDayNum : String → Int := fun _ => 0

/-- History fixture: person pA was assigned something on 2025-01-01 but
nothing on 2025-01-02 — assigned on merely one of the two most recent days
before 2025-01-03. -/
def consecStore : Data :=
  { chores := [⟨"c", "C"⟩], people := [⟨"pA", "A"⟩],
    assignmentsByDate :=
      [("2025-01-01", ⟨["pA"], [("c", "pA")], false⟩),
       ("2025-01-02", ⟨["pA"], [], false⟩),
       ("2025-01-03", ⟨["pA"], [], false⟩)] }

/-- Today's assignments map as stored (empty when no record exists). -/
def assignmentsAt (data : Data) (d : String) : List (String × String) :=
  match lookupDay data d with
  | some rec => rec.assignments
  | none => []

/-- No availability id in any stored DayRecord is dangling: each refers to a
person in the current people collection. -/
def availAllExist (data : Data) : Prop :=
  ∀ p ∈ data.assignmentsByDate, ∀ pid ∈ p.2.availablePersonIds,
    existsPerson data pid = true

instance (data : Data) : Decidable (availAllExist data) := by
  unfold availAllExist
  infer_instance

theorem lookupDate_setDay_self (m : List (String × DayRecord)) (k : String)
    (v : DayRecord) : lookupDate (setDay m k v) k = some v := by
  induction m with
  | nil => simp [setDay, lookupDate]
  | cons p rest ih =>
    by_cases hp : p.1 = k
    · simp [setDay, hp, lookupDate]
    · simp [setDay, hp, lookupDate, ih]

theorem lookupDate_setDay_ne (m : List (String × DayRecord)) (k k' : String)
    (v : DayRecord) (h : k' ≠ k) :
    lookupDate (setDay m k v) k' = lookupDate m k' := by
  have hne : ¬ k = k' := fun hc => h hc.symm
  induction m with
  | nil => simp [setDay, lookupDate, hne]
  | cons p rest ih =>
    by_cases hp : p.1 = k
    · simp [setDay, hp, lookupDate, hne, fun hc : p.1 = k' => h (hc.symm.trans hp)]
    · by_cases hpk' : p.1 = k'
      · simp [setDay, hp, lookupDate, hpk', h]
      · simp [setDay, hp, lookupDate, hpk', ih]

theorem lookupDate_some_mem (m : List (String × DayRecord)) (k : String)
    (v : DayRecord) (h : lookupDate m k = some v) : (k, v) ∈ m := by
  induction m with
  | nil => simp [lookupDate] at h
  | cons p rest ih =>
    by_cases hp : p.1 = k
    · simp only [lookupDate, hp, if_true, Option.some.injEq] at h
      have : p = (k, v) := by
        cases p with
        | mk a b => simp_all
      simp [this]
    · simp only [lookupDate, hp, if_false] at h
      exact List.mem_cons_of_mem _ (ih h)

theorem setDay_setDay (m : List (String × DayRecord)) (k : String)
    (v w : DayRecord) : setDay (setDay m k v) k w = setDay m k w := by
  induction m with
  | nil => simp [setDay]
  | cons p rest ih =>
    by_cases hp : p.1 = k
    · simp [setDay, hp]
    · simp [setDay, hp, ih]

theorem keys_setDay (m : List (String × DayRecord)) (k : String) (v : DayRecord) :
    (setDay m k v).map Prod.fst =
      if m.any (fun p => decide (p.1 = k)) then m.map Prod.fst
      else m.map Prod.fst ++ [k] := by
  induction m with
  | nil => simp [setDay]
  | cons p rest ih =>
    by_cases hp : p.1 = k
    · simp [setDay, hp]
    · by_cases hr : rest.any (fun p => decide (p.1 = k))
      · simp [setDay, hp, hr, ih]
      · simp [setDay, hp, hr, ih]

theorem charsLt_self (l : List Char) : charsLt l l = false := by
  induction l with
  | nil => rfl
  | cons a as ih => simp [charsLt, ih, lt_irrefl]

theorem strLt_self (s : String) : strLt s s = false := charsLt_self s.data

theorem mem_insertDesc (x a : String) (l : List String) :
    a ∈ insertDesc x l ↔ a = x ∨ a ∈ l := by
  induction l with
  | nil => simp [insertDesc]
  | cons y ys ih =>
    by_cases h : strLt y x = true
    · simp only [insertDesc, if_pos h]
      simp
    · simp only [insertDesc, if_neg h, List.mem_cons, ih]
      tauto

theorem mem_sortDesc (a : String) (l : List String) :
    a ∈ sortDesc l ↔ a ∈ l := by
  induction l with
  | nil => simp [sortDesc]
  | cons y ys ih =>
    simp only [sortDesc, List.foldr_cons] at *
    rw [mem_insertDesc]
    simp [ih]

theorem mem_datesBefore (data : Data) (before d : String) :
    d ∈ datesBefore data before ↔
      d ∈ data.assignmentsByDate.map Prod.fst ∧ strLt d before = true := by
  rw [datesBefore, mem_sortDesc, List.mem_filter]

theorem lookupDay_normalize_self (data : Data) (d : String) :
    lookupDay (normalizeAvailability data d) d = some (normalizeRecord data d) :=
  lookupDate_setDay_self _ _ _

theorem normalizeRecord_existing (data : Data) (date : String) (rec : DayRecord)
    (h : lookupDay data date = some rec) :
    (normalizeRecord data date).assignments = rec.assignments ∧
    (normalizeRecord data date).confirmed = rec.confirmed := by
  simp [normalizeRecord, h]

/-- C1: on the end-to-end fixture (two chores, three people all available,
empty history, today unconfirmed) the code does commit a map giving the two
chores to two distinct people, but — because `dates.slice(0, 2).every(...)`
is vacuously true over an empty history — Phase 1 excludes every candidate,
Phase 2 runs, and the run emits the relaxation warning instead of the
specified "no warnings". -/
theorem c1_empty_history_forces_relaxation :
    (generateAssignments endToEndStore "2025-06-10" (fun _ => 0)).2 =
        some relaxedMsg ∧
    lookupDay (generateAssignments endToEndStore "2025-06-10" (fun _ => 0)).1
        "2025-06-10" =
      some ⟨["pA", "pB", "pC"], [("ch1", "pA"), ("ch2", "pB")], false⟩ ∧
    ("pA" : String) ≠ "pB" := by
  refine ⟨by decide, by decide, by decide⟩

/-- C2 counterexample: on `duplicateAvailStore` the Phase-2 loop finds an
empty candidate set at the second chore after resolving the first one
(`afterSingleChore` shows the first chore had candidates), yet the run
returns the generic `impossibleMsg` and today's assignments stay empty —
the partial Phase-2 map is discarded, not written. -/
theorem c2_partial_map_discarded_cex :
    (generateAssignments duplicateAvailStore "2025-06-10" (fun _ => 0)).2 =
        some impossibleMsg ∧
    lookupDay (generateAssignments duplicateAvailStore "2025-06-10" (fun _ => 0)).1
        "2025-06-10" = some ⟨["pA", "pA"], [], false⟩ ∧
    afterSingleChore ["pA", "pA"] [] true = ["pA", "pA"] := by
  refine ⟨by decide, by decide, by decide⟩

/-- C4 counterexample: a validation-blocked run is not mutation-free.  On
`validationStore` the run aborts with the no-available-people warning, but
the normalization step that `generateAssignments` performs first has already
rewritten today's `availablePersonIds` from `["x"]` to `[]` (assignments and
the confirmed flag are untouched). -/
theorem c4_validation_mutates_availability_cex :
    (generateAssignments validationStore "2025-06-10" (fun _ => 0)).2 =
        some noAvailableMsg ∧
    lookupDay validationStore "2025-06-10" =
        some ⟨["x"], [("c1", "px")], false⟩ ∧
    lookupDay (generateAssignments validationStore "2025-06-10" (fun _ => 0)).1
        "2025-06-10" = some ⟨[], [("c1", "px")], false⟩ := by
  refine ⟨by decide, by decide, by decide⟩

/-- C6 counterexample: the empty-availability record of 2025-01-03 is not
seeded from 2025-01-01 (the nearest earlier day with non-empty availability
and a live person): the code consults only the single nearest earlier day,
2025-01-02, whose availability is empty, so nothing is inherited. -/
theorem c6_no_skipping_cex :
    (normalizeRecord skipStore "2025-01-03").availablePersonIds = [] ∧
    (normalizeRecord skipStore "2025-01-03").availablePersonIds ≠ ["pA"] ∧
    lookupDay skipStore "2025-01-02" = some ⟨[], [], false⟩ ∧
    lookupDay skipStore "2025-01-01" = some ⟨["pA"], [], false⟩ ∧
    existsPerson skipStore "pA" = true := by
  refine ⟨by decide, by decide, by decide, by decide, by decide⟩

/-- C7 counterexample: normalization is not idempotent on every store.  On
`danglingStore` the first call creates 2025-01-02 by copying the earlier
day's availability without filtering deleted people; the second call filters
the dangling id away, producing a different DayRecord and store. -/
theorem c7_not_idempotent_cex :
    normalizeAvailability (normalizeAvailability danglingStore "2025-01-02")
        "2025-01-02" ≠ normalizeAvailability danglingStore "2025-01-02" ∧
    lookupDay (normalizeAvailability danglingStore "2025-01-02") "2025-01-02" =
        some ⟨["b"], [], false⟩ ∧
    lookupDay (normalizeAvailability (normalizeAvailability danglingStore
        "2025-01-02") "2025-01-02") "2025-01-02" = some ⟨[], [], false⟩ := by
  refine ⟨by decide, by decide, by decide⟩

/-- C8 counterexample: a record whose date equals the boundary date
`now - 30 days` is deleted, not retained.  With the sweep running at
10:00 UTC on epoch day 30, the boundary day is epoch day 0 — exactly the
day of `retentionStore`'s record — yet the record's UTC-midnight timestamp
(0) is below the cutoff `nowTs - 30·86400 = 36000`, so the sweep removes
it. -/
theorem c8_boundary_record_deleted_cex :
    localDayNumber ((30 * 86400 + 36000 : Int) - 30 * 86400) 0 = 0 ∧
    epochDayNum "1970-01-01" = 0 ∧
    lookupDay (cleanupOldData retentionStore
        (fun s => utcMidnight (epochDayNum s)) (30 * 86400 + 36000))
      "1970-01-01" = none := by
  refine ⟨by decide, by decide, by decide⟩

/-- C3: the consecutive-day rule of Phase 1 removes a person from the
candidate list exactly when they appear among the assigned values of every
one of the (at most) 2 most recent prior recorded dates; in particular, a
person missing from the assignment map of one of those two days always
survives this filter. -/
theorem c3_consecutive_rule (data : Data) (today pid : String) (l : List String) :
    (pid ∈ afterConsecutive data (datesBefore data today) l ↔
      pid ∈ l ∧
        ¬ ∀ d ∈ (datesBefore data today).take 2, pid ∈ assignedValues data d) ∧
    (∀ d1 d2, (datesBefore data today).take 2 = [d1, d2] →
      pid ∈ l → pid ∉ assignedValues data d2 →
      pid ∈ afterConsecutive data (datesBefore data today) l) := by
  constructor
  · rw [afterConsecutive, List.mem_filter]
    simp [consecBlocked, List.all_eq_true]
  · intro d1 d2 h2 hl hno
    rw [afterConsecutive, List.mem_filter]
    refine ⟨hl, ?_⟩
    simp [consecBlocked, h2, hno]

/-- C3 witness: on `consecStore`, pA — assigned on 2025-01-01 only — is not
excluded by the consecutive-day filter for 2025-01-03. -/
theorem c3_consecutive_rule_witness :
    ("pA" ∈ afterConsecutive consecStore (datesBefore consecStore "2025-01-03")
        ["pA"] ↔
      "pA" ∈ (["pA"] : List String) ∧
        ¬ ∀ d ∈ (datesBefore consecStore "2025-01-03").take 2,
            "pA" ∈ assignedValues consecStore d) ∧
    (∀ d1 d2, (datesBefore consecStore "2025-01-03").take 2 = [d1, d2] →
      "pA" ∈ (["pA"] : List String) → "pA" ∉ assignedValues consecStore d2 →
      "pA" ∈ afterConsecutive consecStore (datesBefore consecStore "2025-01-03")
        ["pA"]) :=
  c3_consecutive_rule consecStore "2025-01-03" "pA" ["pA"]

/-- C6 amended: for an existing record with empty availability, normalization
consults only the single nearest earlier recorded day: it copies (and
filters) that day's availability when it is non-empty and inherits nothing
at all otherwise — it never skips an empty nearer day in favour of an older
non-empty one. -/
theorem c6_amended_nearest_day_only (data : Data) (date : String)
    (rec : DayRecord) (hrec : lookupDay data date = some rec)
    (hempty : rec.availablePersonIds = []) :
    (normalizeRecord data date).availablePersonIds =
      match getLastWorkday data date with
      | some lastDay =>
          if lastDay.availablePersonIds.length ≠ 0 then
            lastDay.availablePersonIds.filter (fun pid => existsPerson data pid)
          else []
      | none => [] := by
  simp only [normalizeRecord, hrec, hempty]
  rcases hlw : getLastWorkday data date with _ | ld
  · simp
  · by_cases hl : ld.availablePersonIds.length ≠ 0
    · simp [hl]
    · simp [hl, hempty]

/-- C6 amended, witness at `skipStore` for date 2025-01-03 (nearest earlier
day empty, so no inheritance). -/
theorem c6_amended_nearest_day_only_witness :
    (normalizeRecord skipStore "2025-01-03").availablePersonIds =
      match getLastWorkday skipStore "2025-01-03" with
      | some lastDay =>
          if lastDay.availablePersonIds.length ≠ 0 then
            lastDay.availablePersonIds.filter
              (fun pid => existsPerson skipStore pid)
          else []
      | none => [] :=
  c6_amended_nearest_day_only skipStore "2025-01-03" ⟨[], [], false⟩
    (by decide) (by decide)

/-- C10: when no DayRecord exists for `today`, `generateAssignments` creates
one through normalization (with empty assignments and unconfirmed) but then
returns at `if (!day) return` — the pre-normalization `day` was `undefined` —
computing no assignments and producing no warning. -/
theorem c10_missing_record_early_return (data : Data) (today : String)
    (rand : Nat → Nat) (h : lookupDay data today = none) :
    generateAssignments data today rand =
        (normalizeAvailability data today, none) ∧
    lookupDay (normalizeAvailability data today) today =
        some (normalizeRecord data today) ∧
    (normalizeRecord data today).assignments = [] ∧
    (normalizeRecord data today).confirmed = false := by
  refine ⟨?_, lookupDay_normalize_self data today, ?_, ?_⟩
  · simp only [generateAssignments, h]
  · simp [normalizeRecord, h]
  · simp [normalizeRecord, h]

/-- C10 witness at `danglingStore`, which has no record for 2025-01-02. -/
theorem c10_missing_record_early_return_witness :
    generateAssignments danglingStore "2025-01-02" (fun _ => 0) =
        (normalizeAvailability danglingStore "2025-01-02", none) ∧
    lookupDay (normalizeAvailability danglingStore "2025-01-02") "2025-01-02" =
        some (normalizeRecord danglingStore "2025-01-02") ∧
    (normalizeRecord danglingStore "2025-01-02").assignments = [] ∧
    (normalizeRecord danglingStore "2025-01-02").confirmed = false :=
  c10_missing_record_early_return danglingStore "2025-01-02" (fun _ => 0)
    (by decide)

theorem lookupDate_filter_none (m : List (String × DayRecord)) (k : String)
    (p : String × DayRecord → Bool) (h : ∀ v, p (k, v) = false) :
    lookupDate (m.filter p) k = none := by
  induction m with
  | nil => rfl
  | cons q rest ih =>
    obtain ⟨a, b⟩ := q
    by_cases hq : p (a, b) = true
    · rw [List.filter_cons_of_pos hq]
      by_cases hk : a = k
      · subst hk
        rw [h b] at hq
        exact absurd hq (by simp)
      · simp [lookupDate, hk, ih]
    · rw [List.filter_cons_of_neg (by simpa using hq)]
      exact ih

/-- C8 amended: the sweep removes exactly the records whose UTC-midnight
timestamp is strictly below `now - 30·86400` seconds.  Hence every record
dated strictly before the boundary day (the local calendar day of
`now - 30 days`, for any real time-zone offset `o < 86400`) is removed,
but the boundary-day record itself is kept only when the cutoff moment lies
at or before that day's UTC midnight — at UTC this means a sweep run any
time after 00:00:00 deletes the boundary-day record as well. -/
theorem c8_amended_cutoff_semantics (data : Data) (dayNum : String → Int)
    (nowTs o : Int) (ho : o < 86400) :
    (∀ k rec, (k, rec) ∈ data.assignmentsByDate →
        dayNum k < localDayNumber (nowTs - 30 * 86400) o →
        lookupDay (cleanupOldData data (fun s => utcMidnight (dayNum s)) nowTs)
          k = none) ∧
    (∀ k rec, (k, rec) ∈ data.assignmentsByDate →
        dayNum k = localDayNumber (nowTs - 30 * 86400) o →
        ((k, rec) ∈ (cleanupOldData data (fun s => utcMidnight (dayNum s))
            nowTs).assignmentsByDate ↔
          nowTs - 30 * 86400 ≤ utcMidnight (dayNum k))) := by
  constructor
  · intro k rec _ hlt
    apply lookupDate_filter_none
    intro v
    simp only [Bool.not_eq_false', decide_eq_true_eq]
    simp only [localDayNumber] at hlt
    simp only [utcMidnight]
    omega
  · intro k rec hmem _
    simp only [cleanupOldData, List.mem_filter, hmem, true_and,
      Bool.not_eq_true', decide_eq_false_iff_not, not_lt, utcMidnight]

/-- C8 amended, witness: with the sweep at UTC midnight opening epoch day 31,
the boundary day is day 1 and the day-0 record is strictly older, hence
removed. -/
theorem c8_amended_cutoff_semantics_witness :
    lookupDay (cleanupOldData retentionStore
        (fun s => utcMidnight (epochDayNum s)) (31 * 86400)) "1970-01-01" =
      none :=
  (c8_amended_cutoff_semantics retentionStore epochDayNum (31 * 86400) 0
      (by decide)).1 "1970-01-01" ⟨[], [], false⟩ (by decide) (by decide)

/-- C2 amended: when a chore in the Phase-2 pass has an empty candidate set,
the engine returns with the single generic warning `impossibleMsg` — which
names no chore — and commits nothing: the store is handed back exactly as
normalization left it, so the chores resolved earlier in that Phase-2 pass
are discarded, not written to today's assignments. -/
theorem c2_amended_phase2_failure_discards (data1 : Data) (day : DayRecord)
    (today : String) (rand : Nat → Nat)
    (hconf : day.confirmed = false)
    (hne : ¬ day.availablePersonIds.length = 0)
    (hge : ¬ (day.availablePersonIds.length < data1.chores.length))
    (hp1 : (phase1Go data1 (datesBefore data1 today) day.availablePersonIds
        (decide (data1.chores.length ≤ day.availablePersonIds.length)) rand
        data1.chores 0 [] []).1 = none)
    (hp2 : phase2Go day.availablePersonIds
        (decide (data1.chores.length ≤ day.availablePersonIds.length)) rand
        data1.chores
        (phase1Go data1 (datesBefore data1 today) day.availablePersonIds
          (decide (data1.chores.length ≤ day.availablePersonIds.length)) rand
          data1.chores 0 [] []).2 [] [] = none) :
    generateCore data1 day today rand = (data1, some impossibleMsg) := by
  simp only [generateCore, hconf, Bool.false_eq_true, if_false]
  rw [if_neg hne, if_neg hge]
  rcases hph : phase1Go data1 (datesBefore data1 today) day.availablePersonIds
      (decide (data1.chores.length ≤ day.availablePersonIds.length)) rand
      data1.chores 0 [] [] with ⟨o, k⟩
  rw [hph] at hp1 hp2
  simp only at hp1 hp2
  subst hp1
  simp only [hp2]

/-- C2 amended, witness at `duplicateAvailStore`. -/
theorem c2_amended_phase2_failure_discards_witness :
    generateCore (normalizeAvailability duplicateAvailStore "2025-06-10")
        (normalizeRecord duplicateAvailStore "2025-06-10") "2025-06-10"
        (fun _ => 0) =
      (normalizeAvailability duplicateAvailStore "2025-06-10",
        some impossibleMsg) :=
  c2_amended_phase2_failure_discards
    (normalizeAvailability duplicateAvailStore "2025-06-10")
    (normalizeRecord duplicateAvailStore "2025-06-10") "2025-06-10"
    (fun _ => 0) (by decide) (by decide) (by decide) (by decide) (by decide)

theorem generateCore_cases (data1 : Data) (day : DayRecord) (today : String)
    (rand : Nat → Nat) :
    (day.confirmed = true ∧
      generateCore data1 day today rand = (data1, some confirmedMsg)) ∨
    (day.confirmed = false ∧ day.availablePersonIds.length = 0 ∧
      generateCore data1 day today rand = (data1, some noAvailableMsg)) ∨
    (day.confirmed = false ∧ ¬ day.availablePersonIds.length = 0 ∧
      day.availablePersonIds.length < data1.chores.length ∧
      generateCore data1 day today rand = (data1, some notEnoughMsg)) ∨
    (day.confirmed = false ∧ ¬ day.availablePersonIds.length = 0 ∧
      ¬ day.availablePersonIds.length < data1.chores.length ∧
      (phase1Go data1 (datesBefore data1 today) day.availablePersonIds
        (decide (data1.chores.length ≤ day.availablePersonIds.length)) rand
        data1.chores 0 [] []).1 = none ∧
      phase2Go day.availablePersonIds
        (decide (data1.chores.length ≤ day.availablePersonIds.length)) rand
        data1.chores
        (phase1Go data1 (datesBefore data1 today) day.availablePersonIds
          (decide (data1.chores.length ≤ day.availablePersonIds.length)) rand
          data1.chores 0 [] []).2 [] [] = none ∧
      generateCore data1 day today rand = (data1, some impossibleMsg)) ∨
    (∃ m, (phase1Go data1 (datesBefore data1 today) day.availablePersonIds
        (decide (data1.chores.length ≤ day.availablePersonIds.length)) rand
        data1.chores 0 [] []).1 = some m ∧
      generateCore data1 day today rand =
        (commitToday data1 today day m, none)) ∨
    (∃ m, (phase1Go data1 (datesBefore data1 today) day.availablePersonIds
        (decide (data1.chores.length ≤ day.availablePersonIds.length)) rand
        data1.chores 0 [] []).1 = none ∧
      phase2Go day.availablePersonIds
        (decide (data1.chores.length ≤ day.availablePersonIds.length)) rand
        data1.chores
        (phase1Go data1 (datesBefore data1 today) day.availablePersonIds
          (decide (data1.chores.length ≤ day.availablePersonIds.length)) rand
          data1.chores 0 [] []).2 [] [] = some m ∧
      generateCore data1 day today rand =
        (commitToday data1 today day m, some relaxedMsg)) := by
  by_cases hc : day.confirmed = true
  · left
    exact ⟨hc, by rw [generateCore, if_pos hc]⟩
  · have hc' : day.confirmed = false := by
      cases hcv : day.confirmed
      · rfl
      · exact absurd hcv hc
    by_cases h0 : day.availablePersonIds.length = 0
    · right; left
      refine ⟨hc', h0, ?_⟩
      rw [generateCore, if_neg hc, if_pos h0]
    · by_cases hlt : day.availablePersonIds.length < data1.chores.length
      · right; right; left
        refine ⟨hc', h0, hlt, ?_⟩
        rw [generateCore, if_neg hc, if_neg h0, if_pos hlt]
      · have hbody : generateCore data1 day today rand =
            (match phase1Go data1 (datesBefore data1 today)
                day.availablePersonIds
                (decide (data1.chores.length ≤ day.availablePersonIds.length))
                rand data1.chores 0 [] [] with
             | (some newAssignments, _) =>
                 (commitToday data1 today day newAssignments, none)
             | (none, k) =>
               match phase2Go day.availablePersonIds
                   (decide (data1.chores.length ≤
                     day.availablePersonIds.length)) rand data1.chores k [] []
                 with
               | none => (data1, some impossibleMsg)
               | some newAssignments =>
                   (commitToday data1 today day newAssignments,
                     some relaxedMsg)) := by
          rw [generateCore, if_neg hc, if_neg h0, if_neg hlt]
        rcases hph : phase1Go data1 (datesBefore data1 today)
            day.availablePersonIds
            (decide (data1.chores.length ≤ day.availablePersonIds.length))
            rand data1.chores 0 [] [] with ⟨o, k⟩
        rcases o with _ | m
        · rcases hp2 : phase2Go day.availablePersonIds
              (decide (data1.chores.length ≤ day.availablePersonIds.length))
              rand data1.chores k [] [] with _ | m2
          · right; right; right; left
            refine ⟨hc', h0, hlt, rfl, rfl, ?_⟩
            rw [hbody, hph]
            show (match phase2Go day.availablePersonIds
                (decide (data1.chores.length ≤ day.availablePersonIds.length))
                rand data1.chores k [] [] with
              | none => (data1, some impossibleMsg)
              | some newAssignments =>
                  (commitToday data1 today day newAssignments,
                    some relaxedMsg)) = (data1, some impossibleMsg)
            rw [hp2]
          · right; right; right; right; right
            refine ⟨m2, rfl, rfl, ?_⟩
            rw [hbody, hph]
            show (match phase2Go day.availablePersonIds
                (decide (data1.chores.length ≤ day.availablePersonIds.length))
                rand data1.chores k [] [] with
              | none => (data1, some impossibleMsg)
              | some newAssignments =>
                  (commitToday data1 today day newAssignments,
                    some relaxedMsg)) =
              (commitToday data1 today day m2, some relaxedMsg)
            rw [hp2]
        · right; right; right; right; left
          refine ⟨m, rfl, ?_⟩
          rw [hbody, hph]

/-- C4 amended: each of the three validation warnings (no available people,
not enough available people, already confirmed) aborts the run before any
pick: the result store is exactly the store normalization produced, and
today's assignments and confirmed flag keep their pre-call values.  The
claim's "mutates no state" fails only because that first normalization step
may rewrite today's `availablePersonIds` (see the counterexample). -/
theorem c4_amended_validation_blocks (data : Data) (today : String)
    (rand : Nat → Nat) (w : String)
    (hw : (generateAssignments data today rand).2 = some w)
    (hval : w = noAvailableMsg ∨ w = notEnoughMsg ∨ w = confirmedMsg) :
    (generateAssignments data today rand).1 =
        normalizeAvailability data today ∧
    lookupDay (generateAssignments data today rand).1 today =
        some (normalizeRecord data today) ∧
    ∀ rec, lookupDay data today = some rec →
      (normalizeRecord data today).assignments = rec.assignments ∧
      (normalizeRecord data today).confirmed = rec.confirmed := by
  have hpres : ∀ rec, lookupDay data today = some rec →
      (normalizeRecord data today).assignments = rec.assignments ∧
      (normalizeRecord data today).confirmed = rec.confirmed :=
    fun rec hrec => normalizeRecord_existing data today rec hrec
  rcases hE : lookupDay data today with _ | rec0
  · rw [generateAssignments] at hw
    simp only [hE] at hw
    exact absurd hw (by simp)
  · have hgen : generateAssignments data today rand =
        generateCore (normalizeAvailability data today)
          (normalizeRecord data today) today rand := by
      rw [generateAssignments]
      simp only [hE]
    have hres : (generateAssignments data today rand).1 =
        normalizeAvailability data today := by
      rcases generateCore_cases (normalizeAvailability data today)
          (normalizeRecord data today) today rand with
        ⟨_, h⟩ | ⟨_, _, h⟩ | ⟨_, _, _, h⟩ | ⟨_, _, _, _, _, h⟩ |
        ⟨m, h1, h⟩ | ⟨m, h1, h2, h⟩
      · rw [hgen, h]
      · rw [hgen, h]
      · rw [hgen, h]
      · rw [hgen, h]
      · rw [hgen, h] at hw
        exact absurd hw (by simp)
      · rw [hgen, h] at hw
        simp only [Option.some.injEq] at hw
        subst hw
        rcases hval with hx | hx | hx
        · exact absurd hx (by decide)
        · exact absurd hx (by decide)
        · exact absurd hx (by decide)
    refine ⟨hres, ?_, fun rec hrec => ?_⟩
    · rw [hres]
      exact lookupDay_normalize_self data today
    · injection hrec with hh
      subst hh
      exact hpres rec0 hE

/-- C4 amended, witness at `validationStore` (no-available-people warning). -/
theorem c4_amended_validation_blocks_witness :
    (generateAssignments validationStore "2025-06-10" (fun _ => 0)).1 =
        normalizeAvailability validationStore "2025-06-10" ∧
    lookupDay (generateAssignments validationStore "2025-06-10"
        (fun _ => 0)).1 "2025-06-10" =
      some (normalizeRecord validationStore "2025-06-10") ∧
    ∀ rec, lookupDay validationStore "2025-06-10" = some rec →
      (normalizeRecord validationStore "2025-06-10").assignments =
          rec.assignments ∧
      (normalizeRecord validationStore "2025-06-10").confirmed =
          rec.confirmed :=
  c4_amended_validation_blocks validationStore "2025-06-10" (fun _ => 0)
    noAvailableMsg (by decide) (Or.inl rfl)

theorem lookupAssign_setAssign_self (m : List (String × String)) (k v : String) :
    lookupAssign (setAssign m k v) k = some v := by
  induction m with
  | nil => simp [setAssign, lookupAssign]
  | cons p rest ih =>
    by_cases hp : p.1 = k
    · simp [setAssign, hp, lookupAssign]
    · simp [setAssign, hp, lookupAssign, ih]

theorem lookupAssign_setAssign_ne (m : List (String × String)) (k k' v : String)
    (h : k' ≠ k) :
    lookupAssign (setAssign m k v) k' = lookupAssign m k' := by
  have hne : ¬ k = k' := fun hc => h hc.symm
  induction m with
  | nil => simp [setAssign, lookupAssign, hne]
  | cons p rest ih =>
    by_cases hp : p.1 = k
    · simp [setAssign, hp, lookupAssign, hne, fun hc : p.1 = k' => h (hc.symm.trans hp)]
    · by_cases hpk' : p.1 = k'
      · simp [setAssign, hp, lookupAssign, hpk', h]
      · simp [setAssign, hp, lookupAssign, hpk', ih]

theorem lookupAssign_setAssign_mono (m : List (String × String))
    (k k' v : String) (h : (lookupAssign m k').isSome = true) :
    (lookupAssign (setAssign m k v) k').isSome = true := by
  by_cases he : k' = k
  · subst he
    rw [lookupAssign_setAssign_self]
    rfl
  · rw [lookupAssign_setAssign_ne m k k' v he]
    exact h

theorem phase1Go_covers (data : Data) (dates : List String)
    (available : List String) (enforce : Bool) (rand : Nat → Nat) :
    ∀ (chores : List Chore) (k : Nat) (acc : List (String × String))
      (assigned : List String) (m : List (String × String)) (k' : Nat),
      phase1Go data dates available enforce rand chores k acc assigned =
        (some m, k') →
      (∀ key, (lookupAssign acc key).isSome = true →
        (lookupAssign m key).isSome = true) ∧
      (∀ c ∈ chores, (lookupAssign m c.id).isSome = true) := by
  intro chores
  induction chores with
  | nil =>
    intro k acc assigned m k' h
    simp only [phase1Go, Prod.mk.injEq, Option.some.injEq] at h
    obtain ⟨hm, _⟩ := h
    subst hm
    exact ⟨fun key hk => hk, by simp⟩
  | cons chore rest ih =>
    intro k acc assigned m k' h
    rw [phase1Go] at h
    by_cases hc0 : (phase1Candidates data dates available assigned enforce
        chore).length = 0
    · rw [if_pos hc0] at h
      simp at h
    · rw [if_neg hc0] at h
      obtain ⟨h1, h2⟩ := ih (k + 1)
        (setAssign acc chore.id
          ((phase1Candidates data dates available assigned enforce chore).getD
            (rand k % (phase1Candidates data dates available assigned enforce
              chore).length) ""))
        (((phase1Candidates data dates available assigned enforce chore).getD
            (rand k % (phase1Candidates data dates available assigned enforce
              chore).length) "") :: assigned) m k' h
      refine ⟨fun key hk => h1 key (lookupAssign_setAssign_mono acc _ key _ hk),
        fun c hcmem => ?_⟩
      rcases List.mem_cons.mp hcmem with hh | hh
      · subst hh
        exact h1 c.id (by rw [lookupAssign_setAssign_self]; rfl)
      · exact h2 c hh

theorem phase2Go_covers (available : List String) (enforce : Bool)
    (rand : Nat → Nat) :
    ∀ (chores : List Chore) (k : Nat) (acc : List (String × String))
      (assigned : List String) (m : List (String × String)),
      phase2Go available enforce rand chores k acc assigned = some m →
      (∀ key, (lookupAssign acc key).isSome = true →
        (lookupAssign m key).isSome = true) ∧
      (∀ c ∈ chores, (lookupAssign m c.id).isSome = true) := by
  intro chores
  induction chores with
  | nil =>
    intro k acc assigned m h
    simp only [phase2Go, Option.some.injEq] at h
    subst h
    exact ⟨fun key hk => hk, by simp⟩
  | cons chore rest ih =>
    intro k acc assigned m h
    rw [phase2Go] at h
    by_cases hc0 : (afterSingleChore available assigned enforce).length = 0
    · rw [if_pos hc0] at h
      simp at h
    · rw [if_neg hc0] at h
      obtain ⟨h1, h2⟩ := ih (k + 1)
        (setAssign acc chore.id
          ((afterSingleChore available assigned enforce).getD
            (rand k % (afterSingleChore available assigned enforce).length) ""))
        (((afterSingleChore available assigned enforce).getD
            (rand k % (afterSingleChore available assigned enforce).length) "")
          :: assigned) m h
      refine ⟨fun key hk => h1 key (lookupAssign_setAssign_mono acc _ key _ hk),
        fun c hcmem => ?_⟩
      rcases List.mem_cons.mp hcmem with hh | hh
      · subst hh
        exact h1 c.id (by rw [lookupAssign_setAssign_self]; rfl)
      · exact h2 c hh

theorem assignmentsAt_normalize (data : Data) (d : String) :
    assignmentsAt (normalizeAvailability data d) d = assignmentsAt data d := by
  rw [assignmentsAt, lookupDay_normalize_self]
  rcases hE : lookupDay data d with _ | rec
  · rw [assignmentsAt, hE]
    simp [normalizeRecord, hE]
  · rw [assignmentsAt, hE]
    exact (normalizeRecord_existing data d rec hE).1

theorem lookupDay_commit_self (data1 : Data) (today : String) (day : DayRecord)
    (m : List (String × String)) :
    lookupDay (commitToday data1 today day m) today =
      some { day with assignments := m } :=
  lookupDate_setDay_self _ _ _

/-- C5: today's assignments change only through the single whole-map commit
at the end of a fully successful phase: after any `generateAssignments` run,
today's stored assignments either equal their pre-call value (no commit
happened — including every Phase-1 abort, whose partial picks are local to
the pass and discarded) or form a complete map with an entry for every
current chore (the commit of a finished Phase-1 or Phase-2 pass). -/
theorem c5_atomic_commit (data : Data) (today : String) (rand : Nat → Nat) :
    assignmentsAt (generateAssignments data today rand).1 today =
        assignmentsAt data today ∨
    data.chores.all (fun c =>
      (lookupAssign (assignmentsAt (generateAssignments data today rand).1
        today) c.id).isSome) = true := by
  rcases hE : lookupDay data today with _ | rec0
  · left
    have hgen : generateAssignments data today rand =
        (normalizeAvailability data today, none) := by
      rw [generateAssignments]
      simp only [hE]
    rw [hgen]
    exact assignmentsAt_normalize data today
  · have hgen : generateAssignments data today rand =
        generateCore (normalizeAvailability data today)
          (normalizeRecord data today) today rand := by
      rw [generateAssignments]
      simp only [hE]
    rcases generateCore_cases (normalizeAvailability data today)
        (normalizeRecord data today) today rand with
      ⟨_, h⟩ | ⟨_, _, h⟩ | ⟨_, _, _, h⟩ | ⟨_, _, _, _, _, h⟩ |
      ⟨m, h1, h⟩ | ⟨m, h1, h2, h⟩
    · left
      rw [hgen, h]
      exact assignmentsAt_normalize data today
    · left
      rw [hgen, h]
      exact assignmentsAt_normalize data today
    · left
      rw [hgen, h]
      exact assignmentsAt_normalize data today
    · left
      rw [hgen, h]
      exact assignmentsAt_normalize data today
    · right
      rw [hgen, h]
      have hph' : phase1Go (normalizeAvailability data today)
          (datesBefore (normalizeAvailability data today) today)
          (normalizeRecord data today).availablePersonIds
          (decide ((normalizeAvailability data today).chores.length ≤
            (normalizeRecord data today).availablePersonIds.length)) rand
          (normalizeAvailability data today).chores 0 [] [] =
          (some m, (phase1Go (normalizeAvailability data today)
            (datesBefore (normalizeAvailability data today) today)
            (normalizeRecord data today).availablePersonIds
            (decide ((normalizeAvailability data today).chores.length ≤
              (normalizeRecord data today).availablePersonIds.length)) rand
            (normalizeAvailability data today).chores 0 [] []).2) := by
        rw [← h1]
      have hcov := (phase1Go_covers (normalizeAvailability data today)
        (datesBefore (normalizeAvailability data today) today)
        (normalizeRecord data today).availablePersonIds
        (decide ((normalizeAvailability data today).chores.length ≤
          (normalizeRecord data today).availablePersonIds.length)) rand
        (normalizeAvailability data today).chores 0 [] [] m _ hph').2
      rw [List.all_eq_true]
      intro c hc
      have hm : assignmentsAt
          (commitToday (normalizeAvailability data today) today
            (normalizeRecord data today) m, (none : Option String)).1 today
          = m := by
        simp only [assignmentsAt, lookupDay_commit_self]
      rw [hm]
      exact hcov c hc
    · right
      rw [hgen, h]
      have hcov := (phase2Go_covers
        (normalizeRecord data today).availablePersonIds
        (decide ((normalizeAvailability data today).chores.length ≤
          (normalizeRecord data today).availablePersonIds.length)) rand
        (normalizeAvailability data today).chores
        (phase1Go (normalizeAvailability data today)
          (datesBefore (normalizeAvailability data today) today)
          (normalizeRecord data today).availablePersonIds
          (decide ((normalizeAvailability data today).chores.length ≤
            (normalizeRecord data today).availablePersonIds.length)) rand
          (normalizeAvailability data today).chores 0 [] []).2 [] [] m h2).2
      rw [List.all_eq_true]
      intro c hc
      have : assignmentsAt
          (commitToday (normalizeAvailability data today) today
            (normalizeRecord data today) m,
            (some relaxedMsg : Option String)).1 today = m := by
        simp only [assignmentsAt, lookupDay_commit_self]
      rw [this]
      exact hcov c hc

theorem filter_ne_length_nodup (xs : List String) (a : String)
    (h : xs.Nodup) :
    xs.length ≤ (xs.filter (fun x => ! decide (x = a))).length + 1 := by
  induction xs with
  | nil => simp
  | cons b bs ih =>
    obtain ⟨hb, hbs⟩ := List.nodup_cons.mp h
    rw [List.filter_cons]
    by_cases hba : b = a
    · rw [if_neg (by simp [hba])]
      have hfix : bs.filter (fun x => ! decide (x = a)) = bs := by
        apply List.filter_eq_self.mpr
        intro x hx
        have hxa : ¬ x = a := fun hxa => hb (by rw [hba]; exact hxa ▸ hx)
        simp [hxa]
      rw [hfix, List.length_cons]
    · rw [if_pos (by simp [hba])]
      rw [List.length_cons, List.length_cons]
      have := ih hbs
      omega

theorem filter_not_mem_length :
    ∀ (l xs : List String), xs.Nodup →
      xs.length ≤ (xs.filter (fun x => decide (x ∉ l))).length + l.length := by
  intro l
  induction l with
  | nil =>
    intro xs _
    have hfix : xs.filter (fun x => decide (x ∉ ([] : List String))) = xs :=
      List.filter_eq_self.mpr (fun x _ => by simp)
    rw [hfix]
    simp
  | cons a as ih =>
    intro xs hnd
    have h1 : xs.filter (fun x => decide (x ∉ a :: as)) =
        (xs.filter (fun x => ! decide (x = a))).filter
          (fun x => decide (x ∉ as)) := by
      rw [List.filter_filter]
      apply List.filter_congr
      intro x _
      by_cases hxa : x = a
      · simp [hxa]
      · by_cases hxas : x ∈ as
        · simp [hxa, hxas]
        · simp [hxa, hxas]
    have h2 := filter_ne_length_nodup xs a hnd
    have h3 := ih (xs.filter (fun x => ! decide (x = a))) (hnd.filter _)
    rw [h1, List.length_cons]
    omega

theorem phase2Go_total (available : List String) (enforce : Bool)
    (rand : Nat → Nat) (hnd : available.Nodup) :
    ∀ (chores : List Chore) (k : Nat) (acc : List (String × String))
      (assigned : List String),
      chores.length + assigned.length ≤ available.length →
      phase2Go available enforce rand chores k acc assigned ≠ none := by
  intro chores
  induction chores with
  | nil =>
    intro k acc assigned _
    simp [phase2Go]
  | cons chore rest ih =>
    intro k acc assigned hlen
    rw [phase2Go]
    have hc : ¬ (afterSingleChore available assigned enforce).length = 0 := by
      cases enforce
      · simp only [afterSingleChore, Bool.false_eq_true, if_false]
        simp only [List.length_cons] at hlen
        omega
      · simp only [afterSingleChore, if_true]
        have := filter_not_mem_length assigned available hnd
        simp only [List.length_cons] at hlen
        omega
    rw [if_neg hc]
    apply ih (k + 1) _ _ ?_
    simp only [List.length_cons] at hlen ⊢
    omega

theorem getLastWorkday_mem (data : Data) (d : String) (ld : DayRecord)
    (h : getLastWorkday data d = some ld) :
    ∃ k, (k, ld) ∈ data.assignmentsByDate := by
  rw [getLastWorkday] at h
  rcases hdb : datesBefore data d with _ | ⟨d1, rest⟩
  · rw [hdb] at h
    simp at h
  · rw [hdb] at h
    exact ⟨d1, lookupDate_some_mem _ _ _ h⟩

theorem normalizeRecord_nodup (data : Data) (d : String)
    (h : ∀ p ∈ data.assignmentsByDate, p.2.availablePersonIds.Nodup) :
    (normalizeRecord data d).availablePersonIds.Nodup := by
  rcases hE : lookupDay data d with _ | rec
  · have hval : (normalizeRecord data d).availablePersonIds =
        match getLastWorkday data d with
        | some lastDay =>
            if lastDay.availablePersonIds.length ≠ 0 then
              lastDay.availablePersonIds
            else []
        | none => [] := by
      simp only [normalizeRecord, hE]
    rw [hval]
    rcases hlw : getLastWorkday data d with _ | ld
    · exact List.nodup_nil
    · show (if ld.availablePersonIds.length ≠ 0 then ld.availablePersonIds
        else []).Nodup
      by_cases hl : ld.availablePersonIds.length ≠ 0
      · rw [if_pos hl]
        obtain ⟨k, hk⟩ := getLastWorkday_mem data d ld hlw
        exact h (k, ld) hk
      · rw [if_neg hl]
        exact List.nodup_nil
  · have hval : (normalizeRecord data d).availablePersonIds =
        (if rec.availablePersonIds.length = 0 then
          match getLastWorkday data d with
          | some lastDay =>
              if lastDay.availablePersonIds.length ≠ 0 then
                lastDay.availablePersonIds
              else rec.availablePersonIds
          | none => rec.availablePersonIds
        else rec.availablePersonIds).filter
          (fun pid => existsPerson data pid) := by
      simp only [normalizeRecord, hE]
    rw [hval]
    apply List.Nodup.filter
    have hrec : rec.availablePersonIds.Nodup :=
      h (d, rec) (lookupDate_some_mem _ _ _ hE)
    by_cases h0 : rec.availablePersonIds.length = 0
    · rw [if_pos h0]
      rcases hlw : getLastWorkday data d with _ | ld
      · exact hrec
      · show (if ld.availablePersonIds.length ≠ 0 then ld.availablePersonIds
          else rec.availablePersonIds).Nodup
        by_cases hl : ld.availablePersonIds.length ≠ 0
        · rw [if_pos hl]
          obtain ⟨k, hk⟩ := getLastWorkday_mem data d ld hlw
          exact h (k, ld) hk
        · rw [if_neg hl]
          exact hrec
    · rw [if_neg h0]
      exact hrec

/-- C9: under the data-model invariant that availability lists are true sets
(no duplicate ids), the Phase-2 empty-candidate branch is unreachable: a run
of `generateAssignments` can never end with `impossibleMsg`, because the
validation gate `available.length >= chores.length` guarantees the relaxed
pass always has a candidate for every chore. -/
theorem c9_no_hard_failure (data : Data) (today : String) (rand : Nat → Nat)
    (h : ∀ p ∈ data.assignmentsByDate, p.2.availablePersonIds.Nodup) :
    (generateAssignments data today rand).2 ≠ some impossibleMsg := by
  rcases hE : lookupDay data today with _ | rec0
  · rw [generateAssignments]
    simp only [hE]
    simp
  · have hgen : generateAssignments data today rand =
        generateCore (normalizeAvailability data today)
          (normalizeRecord data today) today rand := by
      rw [generateAssignments]
      simp only [hE]
    rw [hgen]
    rcases generateCore_cases (normalizeAvailability data today)
        (normalizeRecord data today) today rand with
      ⟨_, hres⟩ | ⟨_, _, hres⟩ | ⟨_, _, _, hres⟩ |
      ⟨_, h0, hlt, hp1, hp2, hres⟩ | ⟨m, h1, hres⟩ | ⟨m, h1, h2, hres⟩
    · rw [hres]
      intro hc
      simp only [Option.some.injEq] at hc
      exact absurd hc (by decide)
    · rw [hres]
      intro hc
      simp only [Option.some.injEq] at hc
      exact absurd hc (by decide)
    · rw [hres]
      intro hc
      simp only [Option.some.injEq] at hc
      exact absurd hc (by decide)
    · exfalso
      have hnd : (normalizeRecord data today).availablePersonIds.Nodup :=
        normalizeRecord_nodup data today h
      have hlen : (normalizeAvailability data today).chores.length +
          ([] : List String).length ≤
          (normalizeRecord data today).availablePersonIds.length := by
        simpa using Nat.le_of_not_lt hlt
      exact phase2Go_total (normalizeRecord data today).availablePersonIds
        (decide ((normalizeAvailability data today).chores.length ≤
          (normalizeRecord data today).availablePersonIds.length)) rand hnd
        (normalizeAvailability data today).chores _ [] [] hlen hp2
    · rw [hres]
      simp
    · rw [hres]
      intro hc
      simp only [Option.some.injEq] at hc
      exact absurd hc (by decide)

/-- C9 witness: on the end-to-end fixture (duplicate-free availability) the
run relaxes but never reaches the hard-failure warning. -/
theorem c9_no_hard_failure_witness :
    (generateAssignments endToEndStore "2025-06-10" (fun _ => 0)).2 ≠
      some impossibleMsg :=
  c9_no_hard_failure endToEndStore "2025-06-10" (fun _ => 0) (by decide)

theorem strLt_ne {a b : String} (h : strLt a b = true) : a ≠ b := by
  intro hc
  rw [hc, strLt_self] at h
  cases h

theorem datesBefore_normalize (data : Data) (d : String) :
    datesBefore (normalizeAvailability data d) d = datesBefore data d := by
  rw [datesBefore, datesBefore]
  have hkeys : (normalizeAvailability data d).assignmentsByDate.map Prod.fst =
      (setDay data.assignmentsByDate d (normalizeRecord data d)).map Prod.fst :=
    rfl
  rw [hkeys, keys_setDay]
  by_cases hany : data.assignmentsByDate.any (fun p => decide (p.1 = d))
  · rw [if_pos hany]
  · rw [if_neg hany, List.filter_append]
    have hnil : ([d].filter (fun x => strLt x d)) = [] := by
      simp [List.filter, strLt_self]
    rw [hnil, List.append_nil]

theorem getLastWorkday_normalize (data : Data) (d : String) :
    getLastWorkday (normalizeAvailability data d) d = getLastWorkday data d := by
  rw [getLastWorkday, getLastWorkday, datesBefore_normalize]
  rcases hdb : datesBefore data d with _ | ⟨d1, rest⟩
  · rfl
  · have hm : d1 ∈ datesBefore data d := by
      rw [hdb]
      exact List.mem_cons_self _ _
    have hlt : strLt d1 d = true := ((mem_datesBefore data d d1).mp hm).2
    show lookupDate (setDay data.assignmentsByDate d (normalizeRecord data d))
        d1 = lookupDate data.assignmentsByDate d1
    exact lookupDate_setDay_ne _ _ _ _ (strLt_ne hlt)

theorem normalizeRecord_of_lookup_none (data : Data) (d : String)
    (h : lookupDay data d = none) :
    normalizeRecord data d =
      { availablePersonIds :=
          match getLastWorkday data d with
          | some lastDay =>
              if lastDay.availablePersonIds.length ≠ 0 then
                lastDay.availablePersonIds
              else []
          | none => []
        assignments := []
        confirmed := false } := by
  simp only [normalizeRecord, h]

theorem normalizeRecord_of_lookup_some (data : Data) (d : String)
    (rec : DayRecord) (h : lookupDay data d = some rec) :
    normalizeRecord data d =
      { rec with
        availablePersonIds :=
          (if rec.availablePersonIds.length = 0 then
            match getLastWorkday data d with
            | some lastDay =>
                if lastDay.availablePersonIds.length ≠ 0 then
                  lastDay.availablePersonIds
                else rec.availablePersonIds
            | none => rec.availablePersonIds
          else rec.availablePersonIds).filter
            (fun pid => existsPerson data pid) } := by
  simp only [normalizeRecord, h]

theorem normalizeRecord_avail_exists (data : Data) (d : String)
    (hwf : availAllExist data) :
    ∀ pid ∈ (normalizeRecord data d).availablePersonIds,
      existsPerson data pid = true := by
  rcases hE : lookupDay data d with _ | rec
  · rw [normalizeRecord_of_lookup_none data d hE]
    rcases hlw : getLastWorkday data d with _ | ld
    · intro pid hpid
      exact absurd hpid (List.not_mem_nil pid)
    · show ∀ pid ∈ (if ld.availablePersonIds.length ≠ 0 then
          ld.availablePersonIds else []), existsPerson data pid = true
      by_cases hl : ld.availablePersonIds.length ≠ 0
      · rw [if_pos hl]
        obtain ⟨k, hk⟩ := getLastWorkday_mem data d ld hlw
        exact fun pid hpid => hwf (k, ld) hk pid hpid
      · rw [if_neg hl]
        intro pid hpid
        exact absurd hpid (List.not_mem_nil pid)
  · rw [normalizeRecord_of_lookup_some data d rec hE]
    intro pid hpid
    exact (List.mem_filter.mp hpid).2

theorem normalizeRecord_empty_inherit (data : Data) (d : String)
    (hwf : availAllExist data) (ld : DayRecord)
    (hlw : getLastWorkday data d = some ld)
    (hN : (normalizeRecord data d).availablePersonIds = []) :
    ld.availablePersonIds.length = 0 := by
  by_contra hlen
  rcases hE : lookupDay data d with _ | rec
  · rw [normalizeRecord_of_lookup_none data d hE] at hN
    simp only [hlw] at hN
    rw [if_pos hlen] at hN
    exact hlen (by rw [hN]; rfl)
  · rw [normalizeRecord_of_lookup_some data d rec hE] at hN
    simp only [hlw] at hN
    by_cases h0 : rec.availablePersonIds.length = 0
    · rw [if_pos h0, if_pos hlen] at hN
      have hall : ∀ pid ∈ ld.availablePersonIds,
          existsPerson data pid = true := by
        obtain ⟨k, hk⟩ := getLastWorkday_mem data d ld hlw
        exact fun pid hpid => hwf (k, ld) hk pid hpid
      rw [List.filter_eq_self.mpr hall] at hN
      exact hlen (by rw [hN]; rfl)
    · rw [if_neg h0] at hN
      have hall : ∀ pid ∈ rec.availablePersonIds,
          existsPerson data pid = true :=
        fun pid hpid => hwf (d, rec) (lookupDate_some_mem _ _ _ hE) pid hpid
      rw [List.filter_eq_self.mpr hall] at hN
      exact h0 (by rw [hN]; rfl)

theorem existsPerson_normalize_fun (data : Data) (d : String) :
    (fun pid => existsPerson (normalizeAvailability data d) pid) =
      (fun pid => existsPerson data pid) := rfl

theorem normalizeRecord_stable (data : Data) (d : String)
    (hwf : availAllExist data) :
    normalizeRecord (normalizeAvailability data d) d =
      normalizeRecord data d := by
  rw [normalizeRecord_of_lookup_some (normalizeAvailability data d) d
    (normalizeRecord data d) (lookupDay_normalize_self data d)]
  rw [getLastWorkday_normalize, existsPerson_normalize_fun]
  by_cases h0 : (normalizeRecord data d).availablePersonIds.length = 0
  · rw [if_pos h0]
    have hNnil : (normalizeRecord data d).availablePersonIds = [] :=
      List.length_eq_zero.mp h0
    rcases hlw : getLastWorkday data d with _ | ld
    · show { normalizeRecord data d with
        availablePersonIds :=
          ((normalizeRecord data d).availablePersonIds).filter
            (fun pid => existsPerson data pid) } = normalizeRecord data d
      rw [List.filter_eq_self.mpr (normalizeRecord_avail_exists data d hwf)]
    · have hld0 : ld.availablePersonIds.length = 0 :=
        normalizeRecord_empty_inherit data d hwf ld hlw hNnil
      have hld0' : ¬ ld.availablePersonIds.length ≠ 0 := by omega
      show { normalizeRecord data d with
        availablePersonIds :=
          (if ld.availablePersonIds.length ≠ 0 then ld.availablePersonIds
            else (normalizeRecord data d).availablePersonIds).filter
            (fun pid => existsPerson data pid) } = normalizeRecord data d
      rw [if_neg hld0',
        List.filter_eq_self.mpr (normalizeRecord_avail_exists data d hwf)]
  · rw [if_neg h0,
      List.filter_eq_self.mpr (normalizeRecord_avail_exists data d hwf)]

/-- C7 amended: normalization is idempotent on every store whose availability
lists reference only existing people.  (Without that restriction idempotence
fails: the create path copies the previous day's availability unfiltered,
and only the second call filters dangling ids — see the counterexample.)
Both the whole store and the DayRecord for the date are unchanged by a
second call. -/
theorem c7_amended_idempotent_on_wellformed (data : Data) (d : String)
    (hwf : availAllExist data) :
    normalizeAvailability (normalizeAvailability data d) d =
        normalizeAvailability data d ∧
    normalizeRecord (normalizeAvailability data d) d =
        normalizeRecord data d := by
  have hA := normalizeRecord_stable data d hwf
  refine ⟨?_, hA⟩
  have hbyDate : setDay (normalizeAvailability data d).assignmentsByDate d
      (normalizeRecord (normalizeAvailability data d) d) =
      (normalizeAvailability data d).assignmentsByDate := by
    rw [hA]
    show setDay (setDay data.assignmentsByDate d (normalizeRecord data d)) d
        (normalizeRecord data d) =
      setDay data.assignmentsByDate d (normalizeRecord data d)
    exact setDay_setDay _ _ _ _
  show ({ normalizeAvailability data d with
    assignmentsByDate :=
      setDay (normalizeAvailability data d).assignmentsByDate d
        (normalizeRecord (normalizeAvailability data d) d) } : Data) =
    normalizeAvailability data d
  rw [hbyDate]

/-- C7 amended, witness: `consecStore` has no dangling availability ids, so
normalizing a fresh date twice equals normalizing it once. -/
theorem c7_amended_idempotent_on_wellformed_witness :
    normalizeAvailability (normalizeAvailability consecStore "2025-01-04")
        "2025-01-04" = normalizeAvailability consecStore "2025-01-04" ∧
    normalizeRecord (normalizeAvailability consecStore "2025-01-04")
        "2025-01-04" = normalizeRecord consecStore "2025-01-04" :=
  c7_amended_idempotent_on_wellformed consecStore "2025-01-04" (by decide)

end Chores

